import Mathlib

/-!
# Verification of the multimodality trip-planner logic

The repository under verification consists of end-to-end browser tests for a
single-page trip-planning widget (citizenlabsgr/multimodality).  The widget's
own logic (URL-fragment state resolver, parking-enforcement classifier, and
strategy recommendation engine) is exercised by the tests but its source is
not part of the repository, so the definitions below are modelled from the
specification's description of that logic, cross-checked against every
behavioural assertion made by the tests in `src/tests.spec.js`.

The development is organised as:
* character/string utilities (digits, number printing/parsing, splitting,
  joining, percent-decoding, substring search);
* the `TripPreferences` data model;
* the fragment parser and serializer;
* the parking-enforcement predicate;
* the strategy recommendation engine;
* the claim theorems.
-/

namespace Multimodality

/-! ## Character and string utilities -/

/-- `true` when `c` is a decimal digit `'0'`–`'9'`. -/
def charIsDigit (c : Char) : Bool := 48 ≤ c.toNat && c.toNat ≤ 57

/-- Numeric value of a decimal digit character, `none` on anything else. -/
def digitVal (c : Char) : Option Nat :=
  if charIsDigit c then some (c.toNat - 48) else none

/-- The decimal digit character for `n` (meaningful for `n < 10`). -/
def digitChar (n : Nat) : Char := Char.ofNat (48 + n)

/-- Fuel-bounded digit expansion (the fuel always suffices when it exceeds
the number, since dividing by ten strictly decreases a positive number). -/
def natCharsAux : Nat → Nat → List Char
  | 0, _ => []
  | fuel + 1, n =>
    if n < 10 then [digitChar n]
    else natCharsAux fuel (n / 10) ++ [digitChar (n % 10)]

/-- Decimal representation of a natural number as a list of characters. -/
def natChars (n : Nat) : List Char := natCharsAux (n + 1) n

/-- Left fold of decimal digits onto an accumulator; fails on a non-digit. -/
def natFromCharsAux : List Char → Nat → Option Nat
  | [], acc => some acc
  | c :: cs, acc =>
    match digitVal c with
    | some d => natFromCharsAux cs (10 * acc + d)
    | none => none

/-- Parse a non-empty all-digit list of characters as a natural number. -/
def natFromChars (l : List Char) : Option Nat :=
  if l = [] then none else natFromCharsAux l 0

/-- Split a character list at every occurrence of `c` (the separator is
dropped; `n` separators yield `n + 1` chunks). -/
def splitOnChar (c : Char) : List Char → List (List Char)
  | [] => [[]]
  | x :: xs =>
    match splitOnChar c xs with
    | [] => [[]]
    | h :: t => if x = c then [] :: h :: t else (x :: h) :: t

/-- Join character-list chunks with the separator `c` between them. -/
def joinWithChar (c : Char) : List (List Char) → List Char
  | [] => []
  | [x] => x
  | x :: y :: t => x ++ c :: joinWithChar c (y :: t)

/-- Numeric value of a hexadecimal digit character. -/
def hexVal (c : Char) : Option Nat :=
  if 48 ≤ c.toNat && c.toNat ≤ 57 then some (c.toNat - 48)
  else if 65 ≤ c.toNat && c.toNat ≤ 70 then some (c.toNat - 55)
  else if 97 ≤ c.toNat && c.toNat ≤ 102 then some (c.toNat - 87)
  else none

/-- Percent-decoding of URL-encoded text: each `%XY` hex escape becomes the
character with code `16*X + Y`; malformed escapes pass through verbatim. -/
def decodeChars : List Char → List Char
  | [] => []
  | c :: rest =>
    if c = '%' then
      match rest with
      | a :: b :: rest2 =>
        match hexVal a, hexVal b with
        | some x, some y => Char.ofNat (16 * x + y) :: decodeChars rest2
        | _, _ => c :: a :: b :: decodeChars rest2
      | _ => c :: rest
    else c :: decodeChars rest

/-- `true` when `pat` occurs at the very start of `s`. -/
def isPrefixChars : List Char → List Char → Bool
  | [], _ => true
  | _ :: _, [] => false
  | a :: as, b :: bs => a == b && isPrefixChars as bs

/-- `true` when `pat` occurs contiguously anywhere inside `s`. -/
def containsChars (pat : List Char) : List Char → Bool
  | [] => isPrefixChars pat []
  | c :: rest => isPrefixChars pat (c :: rest) || containsChars pat rest

/-- Substring test on strings: `strContains s pat` holds when `pat` occurs
contiguously inside `s` (models the tests' `toContainText`). -/
def strContains (s pat : String) : Bool := containsChars pat.data s.data

/-- Character form of `fmtTime`. -/
def fmtTimeChars (h m : Nat) : List Char :=
  [digitChar (h / 10), digitChar (h % 10), ':', digitChar (m / 10), digitChar (m % 10)]

/-- Render the time of day `h:m` as a 24-hour `"HH:MM"` display string. -/
def fmtTime (h m : Nat) : String := String.mk (fmtTimeChars h m)

/-- Character form of `timeToMinutes`. -/
def timeToMinutesChars : List Char → Option Nat
  | [h1, h2, c, m1, m2] =>
    if c = ':' then
      match digitVal h1, digitVal h2, digitVal m1, digitVal m2 with
      | some a, some b, some x, some y => some ((10 * a + b) * 60 + (10 * x + y))
      | _, _, _, _ => none
    else none
  | _ => none

/-- Minutes after midnight denoted by a `"HH:MM"` display string. -/
def timeToMinutes (t : String) : Option Nat := timeToMinutesChars t.data

/-! ## Parking enforcement -/

/-- The weekday names, in order. -/
def weekdays : List String := ["monday", "tuesday", "wednesday", "thursday", "friday"]

/-- `true` when `d` is one of `monday`..`friday`. -/
def isWeekday (d : String) : Bool := weekdays.any (fun w => w == d)

/-- Modelled from the spec: the application exposes a pure predicate
`isParkingEnforced(day, time)` (not included in the repository, only called
by the tests), which holds iff `day` is a weekday (Mon–Fri) and `time`,
a 24-hour `"HH:MM"` string, lies in the half-open window `[08:00, 19:00)`
(480 to 1140 minutes after midnight). -/
def isParkingEnforced (day time : String) : Bool :=
  isWeekday day &&
    match timeToMinutes time with
    | some m => decide (480 ≤ m) && decide (m < 1140)
    | none => false

/-! ## Data model -/

/-- The transportation modes the widget understands. -/
inductive Mode
  | drive
  | rideshare
  | transit
  | micromobility
  | shuttle
  | bike
deriving DecidableEq, Repr

/-- The preference state resolved from the URL fragment. -/
structure TripPreferences where
  modes : List Mode
  day : String
  time : String
  people : Nat
  walkMiles : ℚ
  costDollars : ℚ
  expandedOptions : List Nat
deriving DecidableEq, Repr

/-- The state used when a fragment parameter is absent: empty modes, empty
day and time, the default maximum of 6 people, no walking, no budget, no
expanded strategy cards. -/
def defaultPrefs : TripPreferences :=
  { modes := [], day := "", time := "", people := 6,
    walkMiles := 0, costDollars := 0, expandedOptions := [] }

/-! ## Fragment parameter parsing -/

/-- The fragment token naming each mode. -/
def modeName : Mode → String
  | .drive => "drive"
  | .rideshare => "rideshare"
  | .transit => "transit"
  | .micromobility => "micromobility"
  | .shuttle => "shuttle"
  | .bike => "bike"

/-- Recognise a single mode token; unknown tokens are dropped by the caller. -/
def parseMode (s : String) : Option Mode :=
  if s = "drive" then some .drive
  else if s = "rideshare" then some .rideshare
  else if s = "transit" then some .transit
  else if s = "micromobility" then some .micromobility
  else if s = "shuttle" then some .shuttle
  else if s = "bike" then some .bike
  else none

/-- Modelled from the spec: the `modes` parameter (parser not included in the
repository) is split on commas, filtered against the fixed mode enum with
first-seen order preserved; an empty parameter yields the empty list. -/
def parseModesChars (v : List Char) : List Mode :=
  (splitOnChar ',' v).filterMap (fun t => parseMode (String.mk t))

/-- PM bias of the venue-local time shorthand: an hour in 1–11 denotes that
hour past noon; 12 and anything else stay as given. -/
def pmAdjust (h : Nat) : Nat := if 1 ≤ h ∧ h ≤ 11 then h + 12 else h

/-- Modelled from the spec: the `time` parameter (parser not included in the
repository) accepts 3-digit `HMM` or 4-digit `HHMM` shorthand and produces
the 24-hour `"HH:MM"` display string with the PM bias of `pmAdjust`. -/
def parseTimeParamChars : List Char → Option String
  | [a, b, c] =>
    match digitVal a, digitVal b, digitVal c with
    | some x, some y, some z => some (fmtTime (pmAdjust x) (10 * y + z))
    | _, _, _ => none
  | [a, b, c, d] =>
    match digitVal a, digitVal b, digitVal c, digitVal d with
    | some x, some y, some z, some w =>
      some (fmtTime (pmAdjust (10 * x + y)) (10 * z + w))
    | _, _, _, _ => none
  | _ => none

/-- String form of `parseTimeParamChars`. -/
def parseTimeParam (s : String) : Option String := parseTimeParamChars s.data

/-- Modelled from the spec: the `people` parameter (parser not included in
the repository) is parsed as an integer; a value in 1..6 is stored as-is and
an invalid or out-of-range value falls back to the configured default 6. -/
def parsePeopleChars (v : List Char) : Nat :=
  match natFromChars v with
  | some n => if 1 ≤ n ∧ n ≤ 6 then n else 6
  | none => 6

/-! ## Decimal-number parameters -/

/-- Modelled from the spec: the `walk` and `pay` parameters (parser not
included in the repository) are non-negative decimal numbers; a value is
either an integer string or an integer part and fractional digits separated
by one dot. -/
def parseDecimalChars (v : List Char) : Option ℚ :=
  match splitOnChar '.' v with
  | [a] => (natFromChars a).map (fun n => mkRat ((n : Nat) : Int) 1)
  | [a, b] =>
    match natFromChars a, natFromChars b with
    | some x, some y => some (mkRat (((x * 10 ^ b.length + y : Nat)) : Int) (10 ^ b.length))
    | _, _ => none
  | _ => none

/-- The low `w` decimal digits of `v`, zero-padded to exactly `w`
characters (the fractional part of a decimal print). -/
def padChars : Nat → Nat → List Char
  | 0, _ => []
  | w + 1, v => padChars w (v / 10) ++ [digitChar (v % 10)]

/-- Fuel-bounded search for the smallest exponent `k` (starting at `k0`)
such that `q * 10^k` is an integer; returns the last candidate when the
fuel runs out. -/
def decExpAux (q : ℚ) : Nat → Nat → Nat
  | 0, k => k
  | fuel + 1, k =>
    if (mkRat (q.num * 10 ^ k) q.den).den = 1 then k
    else decExpAux q fuel (k + 1)

/-- The number of fractional digits needed to print `q` exactly: the least
`k` with `q * 10^k` integral.  A fuel of `q.den` always suffices for a
finite-decimal `q`, because its reduced denominator divides `10 ^ q.den`. -/
def decExp (q : ℚ) : Nat := decExpAux q q.den 0

/-- Serialize a non-negative finite-decimal rational (every float the
spec's `walk`/`pay` fields can hold is one): the integer part in decimal,
then, when `q` is not an integer, a dot and the zero-padded fractional
digits at the exact precision `decExp q`. -/
def decimalChars (q : ℚ) : List Char :=
  if decExp q = 0 then
    natChars (mkRat (q.num * 10 ^ decExp q) q.den).num.toNat
  else
    natChars ((mkRat (q.num * 10 ^ decExp q) q.den).num.toNat / 10 ^ decExp q) ++
      '.' :: padChars (decExp q)
        ((mkRat (q.num * 10 ^ decExp q) q.den).num.toNat % 10 ^ decExp q)

/-- Modelled from the spec: the `option` parameter (parser not included in
the repository) is a comma-separated list of integers with non-numeric
tokens dropped. -/
def parseOptionsChars (v : List Char) : List Nat :=
  (splitOnChar ',' v).filterMap natFromChars

/-- Well-formed stored display time: `"HH:MM"` with hour 12–23 and minute
0–59 (the times the venue-local PM shorthand can produce and round-trip). -/
def timeValid (t : String) : Bool :=
  match t.data with
  | [h1, h2, c, m1, m2] =>
    decide (c = ':') &&
      (match digitVal h1, digitVal h2, digitVal m1, digitVal m2 with
       | some a, some b, some x, some y =>
         decide (12 ≤ 10 * a + b) && decide (10 * a + b ≤ 23) &&
           decide (10 * x + y ≤ 59)
       | _, _, _, _ => false)
  | _ => false

/-- Modelled from the spec: serialization writes the stored `"HH:MM"` time
back in the 3–4 digit PM shorthand accepted by the time parser: hour 13–23
emits `hour - 12` followed by the two minute digits; hour at most 12 keeps
its two digits. -/
def serializeTimeChars (t : String) : List Char :=
  match t.data with
  | [h1, h2, c, m1, m2] =>
    if c = ':' then
      match digitVal h1, digitVal h2 with
      | some a, some b =>
        if 10 * a + b ≤ 12 then [h1, h2, m1, m2]
        else natChars (10 * a + b - 12) ++ [m1, m2]
      | _, _ => []
    else []
  | _ => []

/-- Character form of a mode token. -/
def modeNameChars (m : Mode) : List Char := (modeName m).data

/-- The serialized `modes` value: mode tokens joined with literal commas. -/
def modesVal (ms : List Mode) : List Char := joinWithChar ',' (ms.map modeNameChars)

/-! ## The fragment resolver -/

/-- Modelled from the spec: applying one `key=value` pair to the state.
Every value is percent-decoded before use.  Note the `day` branch: the
spec's table says a day outside monday..sunday is ignored, but the
repository's own test ("should handle URL-encoded parameters",
`src/tests.spec.js` lines 151–156) asserts that `day=next%20week` is stored
as `"next week"`, so the decoded value is stored as-is. -/
def applyParam (st : TripPreferences) (kv : List Char × List Char) : TripPreferences :=
  if kv.1 = "modes".data then { st with modes := parseModesChars (decodeChars kv.2) }
  else if kv.1 = "day".data then { st with day := String.mk (decodeChars kv.2) }
  else if kv.1 = "time".data then
    { st with time := (parseTimeParamChars (decodeChars kv.2)).getD "" }
  else if kv.1 = "people".data then
    { st with people := parsePeopleChars (decodeChars kv.2) }
  else if kv.1 = "walk".data then
    { st with walkMiles := (parseDecimalChars (decodeChars kv.2)).getD 0 }
  else if kv.1 = "pay".data then
    { st with costDollars := (parseDecimalChars (decodeChars kv.2)).getD 0 }
  else if kv.1 = "option".data then
    { st with expandedOptions := parseOptionsChars (decodeChars kv.2) }
  else st

/-- Split one query part at `=` into a key/value pair. -/
def parseKV (part : List Char) : Option (List Char × List Char) :=
  match splitOnChar '=' part with
  | [k, v] => some (k, v)
  | _ => none

/-- The fragment path for the venue. -/
def basePath : List Char := "#/visit/van-andel-arena".data

/-- Modelled from the spec: parse a whole fragment
`#/visit/<destination>?key=value&...` into a preference state, applying the
recognised parameters in order over the defaults. -/
def parseFragChars (l : List Char) : Option TripPreferences :=
  match splitOnChar '?' l with
  | [p] => if p = basePath then some defaultPrefs else none
  | [p, q] =>
    if p = basePath then
      some (((splitOnChar '&' q).filterMap parseKV).foldl applyParam defaultPrefs)
    else none
  | _ => none

/-- String form of `parseFragChars`. -/
def parseFragment (x : String) : Option TripPreferences := parseFragChars x.data

/-- One serialized `key=value` part. -/
def kvChars (kv : List Char × List Char) : List Char := kv.1 ++ '=' :: kv.2

/-- Modelled from the spec: the parameters serialization emits — only those
differing from the default state, each in its canonical form, with literal
commas. -/
def paramsList (s : TripPreferences) : List (List Char × List Char) :=
  (if s.modes = [] then [] else [("modes".data, modesVal s.modes)]) ++
  (if s.day = "" then [] else [("day".data, s.day.data)]) ++
  (if s.time = "" then [] else [("time".data, serializeTimeChars s.time)]) ++
  (if s.people = 6 then [] else [("people".data, natChars s.people)]) ++
  (if s.walkMiles = 0 then [] else [("walk".data, decimalChars s.walkMiles)]) ++
  (if s.costDollars = 0 then [] else [("pay".data, decimalChars s.costDollars)]) ++
  (if s.expandedOptions = [] then [] else
    [("option".data, joinWithChar ',' (s.expandedOptions.map natChars))])

/-- Modelled from the spec: serialize a preference state into its fragment,
emitting a query only when some parameter differs from the defaults. -/
def serializeFragChars (s : TripPreferences) : List Char :=
  if paramsList s = [] then basePath
  else basePath ++ '?' :: joinWithChar '&' ((paramsList s).map kvChars)

/-- String form of `serializeFragChars`. -/
def serializeFragment (s : TripPreferences) : String := String.mk (serializeFragChars s)

/-- A character that can sit inside a serialized parameter value without
disturbing the fragment structure or percent-decoding. -/
def fragSafeChar (c : Char) : Bool := decide (c ≠ '?' ∧ c ≠ '&' ∧ c ≠ '=' ∧ c ≠ '%')

/-- All characters of `l` are fragment-safe. -/
def fragSafe (l : List Char) : Prop := ∀ c ∈ l, fragSafeChar c = true

instance fragSafeDecidable (l : List Char) : Decidable (fragSafe l) :=
  inferInstanceAs (Decidable (∀ c ∈ l, fragSafeChar c = true))

/-- The valid preference states: fragment-safe day text, an empty or
well-formed stored time, people within 1..6, and non-negative
finite-decimal walk and pay budgets.  The decimal condition
`(mkRat (q.num * 10 ^ q.den) q.den).den = 1` says `q * 10 ^ q.den` is an
integer; by `finiteDecimal_iff` below it holds iff some power of ten
clears the denominator at all, so it admits every non-negative float
(floats are dyadic, see `dyadic_finiteDecimal`) — including multi-place
decimals such as 0.25.  These are the states the resolver itself produces
from well-formed fragments. -/
def validPrefs (s : TripPreferences) : Prop :=
  fragSafe s.day.data ∧
  (s.time = "" ∨ timeValid s.time = true) ∧
  1 ≤ s.people ∧ s.people ≤ 6 ∧
  0 ≤ s.walkMiles.num ∧
  (mkRat (s.walkMiles.num * 10 ^ s.walkMiles.den) s.walkMiles.den).den = 1 ∧
  0 ≤ s.costDollars.num ∧
  (mkRat (s.costDollars.num * 10 ^ s.costDollars.den) s.costDollars.den).den = 1

instance validPrefsDecidable (s : TripPreferences) : Decidable (validPrefs s) := by
  unfold validPrefs
  infer_instance

/-! ## Strategy recommendation engine -/

/-- Rendered card for the rideshare strategy. -/
def rideshareRender : String :=
  "Best option: rideshare. Request an Uber or Lyft ride to the venue."

/-- Rendered terminal card when the user will not pay during enforcement. -/
def unknownNotWilling : String :=
  "Unknown Strategy: not willing to pay for parking."

/-- Rendered terminal card when no strategy is viable. -/
def unknownNoOptions : String :=
  "Unknown Strategy: No options available."

/-- Rendered card for the nearer city garage, with the metered-street
alternative surfaced in the step list. -/
def garageRender : String :=
  "Drive downtown and use the city parking garage. Alternative: Park at metered street parking nearby."

/-- Rendered card for the affordable surface lot (with a garage alternative). -/
def affordableLotRender : String :=
  "Park at the affordable surface lot and walk to the venue. Alternative: the city parking garage."

/-- Rendered card for the costlier garage chosen above the $19 band. -/
def costlyGarageRender : String :=
  "Drive and park at the premium parking garage close to the venue."

/-- Rendered card for metered street parking. -/
def meteredRender : String :=
  "Park at metered street parking near the venue."

/-- Rendered card for free street parking. -/
def freeStreetRender : String :=
  "Park at free street parking near the venue."

/-- Rendered card for the combined drive-plus-transit strategy. -/
def driveTransitRender : String :=
  "Drive to a transit stop and ride the bus downtown."

/-- Minutes after midnight of a display time, defaulting to 0 when unparsable. -/
def minutesOf (t : String) : Nat := (timeToMinutes t).getD 0

/-- A preference state as the tests build one: chosen modes, day, display
time, walk budget in miles and pay budget in dollars, with the defaults for
the remaining fields. -/
def testState (ms : List Mode) (day time : String) (walk pay : ℚ) : TripPreferences :=
  { modes := ms, day := day, time := time, people := 6, walkMiles := walk,
    costDollars := pay, expandedOptions := [] }

/-- Modelled from the spec: the metered cost required to park for the rest of
the enforcement window (which ends at 19:00 = minute 1140), proportional to
the remaining enforced minutes at the observed $4/hour metered rate. -/
def requiredCost (m : Nat) : ℚ := mkRat ((1140 - m : Nat) : Int) 15

/-- Modelled from the spec: the drive-mode parking evaluation (engine not
included in the repository).  When enforcement is active, a budget below the
required metered cost falls back to free street parking beyond the 0.5-mile
enforcement zone if the walk budget allows, and otherwise terminates with an
"Unknown Strategy" card; a sufficient budget selects the affordable surface
lot (walk ≥ 0.5 miles and $8–$19), the costlier garage (> $19), the nearer
garage (walk < 0.5 miles), or plain metered parking (< $8).  Outside
enforcement, a budget of $8 or more is honoured with the same paid options,
and a lower budget prefers free street parking within the walk budget. -/
def renderParking (s : TripPreferences) : String :=
  if isParkingEnforced s.day s.time then
    if s.costDollars < requiredCost (minutesOf s.time) then
      if mkRat 1 2 < s.walkMiles then freeStreetRender
      else if s.costDollars = 0 then unknownNotWilling
      else unknownNoOptions
    else if 8 ≤ s.costDollars then
      if mkRat 1 2 ≤ s.walkMiles then
        if s.costDollars ≤ 19 then affordableLotRender else costlyGarageRender
      else garageRender
    else meteredRender
  else
    if 8 ≤ s.costDollars then
      if mkRat 1 2 ≤ s.walkMiles then
        if s.costDollars ≤ 19 then affordableLotRender else costlyGarageRender
      else garageRender
    else if mkRat 1 5 ≤ s.walkMiles then freeStreetRender
    else garageRender

/-- Modelled from the spec: the ordered, first-match-wins decision policy of
the strategy recommendation engine (engine not included in the repository).
Rideshare beats drive whenever both are selected; drive together with
transit is non-viable without a walking budget and falls through to any
other selected mode; drive alone evaluates parking; with no viable mode the
engine reports the "Unknown Strategy" terminal card. -/
def recommend (s : TripPreferences) : String :=
  if Mode.rideshare ∈ s.modes ∧ Mode.drive ∈ s.modes then rideshareRender
  else if Mode.drive ∈ s.modes ∧ Mode.transit ∈ s.modes then
    if s.walkMiles = 0 then
      if Mode.rideshare ∈ s.modes then rideshareRender else unknownNoOptions
    else driveTransitRender
  else if Mode.drive ∈ s.modes then renderParking s
  else if Mode.rideshare ∈ s.modes then rideshareRender
  else unknownNoOptions

/-! ## Utility lemmas -/

theorem digitVal_digitChar (n : Nat) (h : n < 10) : digitVal (digitChar n) = some n := by
  interval_cases n <;> decide

theorem digitVal_lt (c : Char) (n : Nat) (h : digitVal c = some n) : n < 10 := by
  unfold digitVal at h
  split at h
  · rename_i hc
    unfold charIsDigit at hc
    simp only [Bool.and_eq_true, decide_eq_true_eq] at hc
    simp only [Option.some.injEq] at h
    omega
  · exact absurd h (by simp)

theorem digitChar_digitVal (c : Char) (n : Nat) (h : digitVal c = some n) :
    digitChar n = c := by
  unfold digitVal at h
  split at h
  · rename_i hc
    unfold charIsDigit at hc
    simp only [Bool.and_eq_true, decide_eq_true_eq] at hc
    have hn : n = c.toNat - 48 := by
      simpa using h.symm
    subst hn
    unfold digitChar
    rw [show 48 + (c.toNat - 48) = c.toNat by omega, Char.ofNat_toNat]
  · exact absurd h (by simp)

theorem timeToMinutesChars_fmtTimeChars (h m : Nat) (hh : h < 24) (hm : m < 60) :
    timeToMinutesChars (fmtTimeChars h m) = some (h * 60 + m) := by
  have e1 := digitVal_digitChar (h / 10) (by omega)
  have e2 := digitVal_digitChar (h % 10) (by omega)
  have e3 := digitVal_digitChar (m / 10) (by omega)
  have e4 := digitVal_digitChar (m % 10) (by omega)
  simp only [fmtTimeChars, timeToMinutesChars, e1, e2, e3, e4, if_true, Option.some.injEq]
  omega

theorem timeToMinutes_fmtTime (h m : Nat) (hh : h < 24) (hm : m < 60) :
    timeToMinutes (fmtTime h m) = some (h * 60 + m) := by
  have hd : (fmtTime h m).data = fmtTimeChars h m := rfl
  unfold timeToMinutes
  rw [hd]
  exact timeToMinutesChars_fmtTimeChars h m hh hm

/-! ## Number printing/parsing round-trip lemmas -/

theorem natFromCharsAux_append (xs ys : List Char) (acc : Nat) :
    natFromCharsAux (xs ++ ys) acc =
      (natFromCharsAux xs acc).bind (fun a => natFromCharsAux ys a) := by
  induction xs generalizing acc with
  | nil => rfl
  | cons c cs ih =>
    simp only [List.cons_append, natFromCharsAux]
    cases digitVal c with
    | none => rfl
    | some d => exact ih (10 * acc + d)

theorem natCharsAux_congr :
    ∀ f1 n, n < f1 → ∀ f2, n < f2 → natCharsAux f1 n = natCharsAux f2 n := by
  intro f1
  induction f1 with
  | zero => intro n h; omega
  | succ f ih =>
    intro n hn f2 hn2
    cases f2 with
    | zero => omega
    | succ g =>
      simp only [natCharsAux]
      by_cases h : n < 10
      · rw [if_pos h, if_pos h]
      · rw [if_neg h, if_neg h,
          ih (n / 10) (by omega) g (by omega)]

theorem natChars_unfold (n : Nat) :
    natChars n =
      if n < 10 then [digitChar n]
      else natChars (n / 10) ++ [digitChar (n % 10)] := by
  show natCharsAux (n + 1) n = _
  simp only [natCharsAux]
  by_cases h : n < 10
  · rw [if_pos h, if_pos h]
  · rw [if_neg h, if_neg h,
      natCharsAux_congr n (n / 10) (by omega) (n / 10 + 1) (by omega)]
    rfl

theorem natChars_ne_nil (n : Nat) : natChars n ≠ [] := by
  rw [natChars_unfold]
  split
  · simp
  · simp

theorem natFromCharsAux_natChars :
    ∀ n acc, natFromCharsAux (natChars n) acc =
      some (acc * 10 ^ (natChars n).length + n) := by
  intro n
  induction n using Nat.strong_induction_on with
  | _ n ih =>
    intro acc
    by_cases h : n < 10
    · rw [natChars_unfold, if_pos h]
      simp only [natFromCharsAux, digitVal_digitChar n h, List.length_singleton]
      congr 1
      omega
    · rw [natChars_unfold, if_neg h]
      rw [natFromCharsAux_append]
      rw [ih (n / 10) (Nat.div_lt_self (by omega) (by omega)) acc]
      simp only [Option.bind_some, Option.some_bind, natFromCharsAux,
        digitVal_digitChar (n % 10) (by omega), List.length_append,
        List.length_singleton]
      congr 1
      have hnm := Nat.div_add_mod n 10
      calc 10 * (acc * 10 ^ (natChars (n / 10)).length + n / 10) + n % 10
          = acc * 10 ^ ((natChars (n / 10)).length + 1) +
              (10 * (n / 10) + n % 10) := by ring
        _ = acc * 10 ^ ((natChars (n / 10)).length + 1) + n := by rw [hnm]

theorem natFromChars_natChars (n : Nat) : natFromChars (natChars n) = some n := by
  rw [natFromChars, if_neg (natChars_ne_nil n), natFromCharsAux_natChars]
  simp

/-! ## Splitting, joining and decoding lemmas -/

theorem splitOnChar_ne_nil (c : Char) (l : List Char) : splitOnChar c l ≠ [] := by
  cases l with
  | nil => simp [splitOnChar]
  | cons x xs =>
    rcases hs : splitOnChar c xs with _ | ⟨a, t⟩
    · simp [splitOnChar, hs]
    · simp only [splitOnChar, hs]
      split <;> simp

theorem splitOnChar_no_sep (c : Char) (l : List Char) (h : c ∉ l) :
    splitOnChar c l = [l] := by
  induction l with
  | nil => rfl
  | cons x xs ih =>
    have hx : x ≠ c := by rintro rfl; exact h (List.mem_cons_self x xs)
    have hxs : c ∉ xs := fun hc => h (List.mem_cons_of_mem x hc)
    simp only [splitOnChar, ih hxs]
    rw [if_neg hx]

theorem splitOnChar_append (c : Char) (a b : List Char) (ha : c ∉ a) :
    splitOnChar c (a ++ c :: b) = a :: splitOnChar c b := by
  induction a with
  | nil =>
    rcases h : splitOnChar c b with _ | ⟨x, t⟩
    · exact absurd h (splitOnChar_ne_nil c b)
    · simp [splitOnChar, h]
  | cons x xs ih =>
    have hx : x ≠ c := by rintro rfl; exact ha (List.mem_cons_self x xs)
    have hxs : c ∉ xs := fun hc => ha (List.mem_cons_of_mem x hc)
    simp [splitOnChar, List.append_eq, ih hxs, hx]

theorem splitOnChar_two (c : Char) (a b : List Char) (ha : c ∉ a) (hb : c ∉ b) :
    splitOnChar c (a ++ c :: b) = [a, b] := by
  rw [splitOnChar_append c a b ha, splitOnChar_no_sep c b hb]

theorem splitOnChar_joinWithChar (c : Char) (parts : List (List Char))
    (hne : parts ≠ []) (hcl : ∀ p ∈ parts, c ∉ p) :
    splitOnChar c (joinWithChar c parts) = parts := by
  induction parts with
  | nil => exact absurd rfl hne
  | cons p ps ih =>
    cases ps with
    | nil =>
      simp only [joinWithChar]
      exact splitOnChar_no_sep c p (hcl p (List.mem_cons_self p []))
    | cons q qs =>
      simp only [joinWithChar]
      rw [splitOnChar_append c p _ (hcl p (List.mem_cons_self p _))]
      rw [ih (by simp) (fun r hr => hcl r (List.mem_cons_of_mem p hr))]

theorem mem_joinWithChar (c : Char) (parts : List (List Char)) (x : Char)
    (hx : x ∈ joinWithChar c parts) : x = c ∨ ∃ p ∈ parts, x ∈ p := by
  induction parts with
  | nil => simp [joinWithChar] at hx
  | cons p ps ih =>
    cases ps with
    | nil =>
      simp only [joinWithChar] at hx
      exact Or.inr ⟨p, List.mem_cons_self p [], hx⟩
    | cons q qs =>
      simp only [joinWithChar, List.mem_append, List.mem_cons] at hx
      rcases hx with hp | hc | hj
      · exact Or.inr ⟨p, List.mem_cons_self p _, hp⟩
      · exact Or.inl hc
      · rcases ih hj with h | ⟨r, hr, hxr⟩
        · exact Or.inl h
        · exact Or.inr ⟨r, List.mem_cons_of_mem p hr, hxr⟩

theorem decodeChars_of_no_escape (l : List Char) (h : '%' ∉ l) :
    decodeChars l = l := by
  induction l with
  | nil => rfl
  | cons c rest ih =>
    have hc : c ≠ '%' := by rintro rfl; exact h (List.mem_cons_self _ _)
    have hrest : '%' ∉ rest := fun hr => h (List.mem_cons_of_mem c hr)
    rw [decodeChars.eq_def]
    simp only []
    rw [if_neg hc, ih hrest]

/-! ## Character-class lemmas -/

theorem charIsDigit_digitChar (n : Nat) (h : n < 10) :
    charIsDigit (digitChar n) = true := by
  interval_cases n <;> decide

theorem natChars_all_digit (n : Nat) : ∀ c ∈ natChars n, charIsDigit c = true := by
  induction n using Nat.strong_induction_on with
  | _ n ih =>
    intro c hc
    rw [natChars_unfold] at hc
    split at hc
    · rename_i h
      simp only [List.mem_singleton] at hc
      exact hc ▸ charIsDigit_digitChar n h
    · rename_i h
      rw [List.mem_append] at hc
      rcases hc with hc | hc
      · exact ih (n / 10) (Nat.div_lt_self (by omega) (by omega)) c hc
      · simp only [List.mem_singleton] at hc
        exact hc ▸ charIsDigit_digitChar (n % 10) (by omega)

theorem fragSafeChar_of_digit (c : Char) (h : charIsDigit c = true) :
    fragSafeChar c = true := by
  rw [fragSafeChar, decide_eq_true_eq]
  refine ⟨?_, ?_, ?_, ?_⟩ <;> rintro rfl <;> exact absurd h (by decide)

theorem fragSafe_natChars (n : Nat) : fragSafe (natChars n) :=
  fun c hc => fragSafeChar_of_digit c (natChars_all_digit n c hc)

theorem not_mem_of_fragSafe (l : List Char) (h : fragSafe l) :
    '?' ∉ l ∧ '&' ∉ l ∧ '=' ∉ l ∧ '%' ∉ l := by
  refine ⟨?_, ?_, ?_, ?_⟩ <;> intro hm <;> exact absurd (h _ hm) (by decide)

theorem comma_not_mem_natChars (n : Nat) : ',' ∉ natChars n := by
  intro h
  exact absurd (natChars_all_digit n ',' h) (by decide)

theorem dot_not_mem_natChars (n : Nat) : '.' ∉ natChars n := by
  intro h
  exact absurd (natChars_all_digit n '.' h) (by decide)

theorem fragSafe_join (c : Char) (hc : fragSafeChar c = true)
    (parts : List (List Char)) (hp : ∀ p ∈ parts, fragSafe p) :
    fragSafe (joinWithChar c parts) := by
  intro x hx
  rcases mem_joinWithChar c parts x hx with rfl | ⟨p, hmem, hxp⟩
  · exact hc
  · exact hp p hmem x hxp

/-! ## Parameter value round-trip lemmas -/

theorem parseMode_modeNameChars (m : Mode) :
    parseMode (String.mk (modeNameChars m)) = some m := by
  cases m <;> decide

theorem comma_not_mem_modeNameChars (m : Mode) : ',' ∉ modeNameChars m := by
  cases m <;> decide

theorem fragSafe_modeNameChars (m : Mode) : fragSafe (modeNameChars m) := by
  cases m <;> decide

theorem filterMap_parseMode (ms : List Mode) :
    List.filterMap (fun t => parseMode (String.mk t)) (ms.map modeNameChars) = ms := by
  induction ms with
  | nil => rfl
  | cons m ms ih =>
    simp only [List.map_cons, List.filterMap_cons, parseMode_modeNameChars, ih]

theorem parseModesChars_modesVal (ms : List Mode) (hne : ms ≠ []) :
    parseModesChars (modesVal ms) = ms := by
  unfold parseModesChars modesVal
  rw [splitOnChar_joinWithChar ',' (ms.map modeNameChars)
      (by simpa using hne)
      (by rintro p hp
          rcases List.mem_map.mp hp with ⟨m, _, rfl⟩
          exact comma_not_mem_modeNameChars m)]
  exact filterMap_parseMode ms

theorem fragSafe_modesVal (ms : List Mode) : fragSafe (modesVal ms) := by
  unfold modesVal
  refine fragSafe_join ',' (by decide) _ ?_
  rintro p hp
  rcases List.mem_map.mp hp with ⟨m, _, rfl⟩
  exact fragSafe_modeNameChars m

theorem natFromChars_single (k : Nat) (hk : k < 10) :
    natFromChars [digitChar k] = some k := by
  simp [natFromChars, natFromCharsAux, digitVal_digitChar k hk]

theorem filterMap_natFromChars (l : List Nat) :
    List.filterMap natFromChars (l.map natChars) = l := by
  induction l with
  | nil => rfl
  | cons n ns ih =>
    simp only [List.map_cons, List.filterMap_cons, natFromChars_natChars, ih]

theorem parseOptionsChars_roundtrip (l : List Nat) (hne : l ≠ []) :
    parseOptionsChars (joinWithChar ',' (l.map natChars)) = l := by
  unfold parseOptionsChars
  rw [splitOnChar_joinWithChar ',' (l.map natChars) (by simpa using hne)
      (by rintro p hp
          rcases List.mem_map.mp hp with ⟨n, _, rfl⟩
          exact comma_not_mem_natChars n)]
  exact filterMap_natFromChars l

theorem fragSafe_optionsVal (l : List Nat) :
    fragSafe (joinWithChar ',' (l.map natChars)) := by
  refine fragSafe_join ',' (by decide) _ ?_
  rintro p hp
  rcases List.mem_map.mp hp with ⟨n, _, rfl⟩
  exact fragSafe_natChars n

theorem parsePeopleChars_natChars (p : Nat) (h1 : 1 ≤ p) (h6 : p ≤ 6) :
    parsePeopleChars (natChars p) = p := by
  simp only [parsePeopleChars, natFromChars_natChars]
  rw [if_pos ⟨h1, h6⟩]

/-! ## Decimal round-trip lemmas -/

theorem padChars_length (w : Nat) : ∀ v : Nat, (padChars w v).length = w := by
  induction w with
  | zero => intro v; rfl
  | succ w ih => intro v; simp [padChars, ih]

theorem padChars_all_digit (w : Nat) :
    ∀ v : Nat, ∀ c ∈ padChars w v, charIsDigit c = true := by
  induction w with
  | zero => intro v c hc; simp [padChars] at hc
  | succ w ih =>
    intro v c hc
    simp only [padChars, List.mem_append, List.mem_singleton] at hc
    rcases hc with hc | rfl
    · exact ih (v / 10) c hc
    · exact charIsDigit_digitChar _ (by omega)

theorem dot_not_mem_padChars (w v : Nat) : '.' ∉ padChars w v := by
  intro h
  exact absurd (padChars_all_digit w v '.' h) (by decide)

theorem natFromCharsAux_padChars (w : Nat) :
    ∀ v acc : Nat, natFromCharsAux (padChars w v) acc =
      some (acc * 10 ^ w + v % 10 ^ w) := by
  induction w with
  | zero => intro v acc; simp [padChars, natFromCharsAux, Nat.mod_one]
  | succ w ih =>
    intro v acc
    simp only [padChars]
    rw [natFromCharsAux_append, ih (v / 10) acc]
    simp only [Option.some_bind, Option.bind_some, natFromCharsAux,
      digitVal_digitChar (v % 10) (by omega)]
    congr 1
    have hmm : v % (10 * 10 ^ w) = v % 10 + 10 * (v / 10 % 10 ^ w) := Nat.mod_mul
    have hpow : 10 * 10 ^ w = 10 ^ (w + 1) := by
      rw [pow_succ]
      ring
    calc 10 * (acc * 10 ^ w + v / 10 % 10 ^ w) + v % 10
        = acc * (10 * 10 ^ w) + (v % 10 + 10 * (v / 10 % 10 ^ w)) := by ring
      _ = acc * (10 * 10 ^ w) + v % (10 * 10 ^ w) := by rw [← hmm]
      _ = acc * 10 ^ (w + 1) + v % 10 ^ (w + 1) := by rw [hpow]

theorem natFromChars_padChars (w v : Nat) (hw : w ≠ 0) :
    natFromChars (padChars w v) = some (v % 10 ^ w) := by
  have hne : padChars w v ≠ [] := by
    intro h
    have hl := padChars_length w v
    rw [h] at hl
    simp at hl
    omega
  rw [natFromChars, if_neg hne, natFromCharsAux_padChars]
  simp

theorem fragSafe_decimalChars (q : ℚ) : fragSafe (decimalChars q) := by
  intro c hc
  unfold decimalChars at hc
  split at hc
  · exact fragSafeChar_of_digit c (natChars_all_digit _ c hc)
  · rw [List.mem_append] at hc
    rcases hc with hc | hc
    · exact fragSafeChar_of_digit c (natChars_all_digit _ c hc)
    · rcases List.mem_cons.mp hc with rfl | hc
      · decide
      · exact fragSafeChar_of_digit c (padChars_all_digit _ _ c hc)

theorem mkRat_den_dvd (a : Int) (d : Nat) : (mkRat a d).den ∣ d := by
  have h := Rat.den_dvd a (d : Int)
  rw [← Rat.mkRat_eq_divInt] at h
  exact_mod_cast h

theorem mkRat_den_one_of_dvd (q : ℚ) (j : Nat) (h : q.den ∣ 10 ^ j) :
    (mkRat (q.num * 10 ^ j) q.den).den = 1 := by
  obtain ⟨t, ht⟩ := h
  have hden : (q.den : ℚ) ≠ 0 := Nat.cast_ne_zero.mpr q.den_nz
  have hmk : mkRat (q.num * 10 ^ j) q.den = ((q.num * t : Int) : ℚ) := by
    rw [Rat.mkRat_eq_div]
    push_cast
    rw [show ((10 : ℚ)) ^ j = (q.den : ℚ) * (t : ℚ) from by exact_mod_cast ht]
    rw [div_eq_iff hden]
    ring
  rw [hmk, Rat.den_intCast]

theorem dvd_pow_self_of_dvd_pow {d m k : Nat} (hm : m ≠ 0) (h : d ∣ m ^ k) :
    d ∣ m ^ d := by
  have hd : d ≠ 0 := by
    rintro rfl
    rw [Nat.zero_dvd] at h
    exact pow_ne_zero k hm h
  rw [← Nat.factorization_le_iff_dvd hd (pow_ne_zero k hm)] at h
  rw [← Nat.factorization_le_iff_dvd hd (pow_ne_zero d hm)]
  rw [Nat.factorization_pow] at h ⊢
  rw [Finsupp.le_def] at h ⊢
  intro p
  have hp := h p
  simp only [Finsupp.smul_apply, smul_eq_mul] at hp ⊢
  by_cases hmp : m.factorization p = 0
  · rw [hmp] at hp ⊢
    simpa using hp
  · have h1 : d.factorization p < d := Nat.factorization_lt p hd
    have h2 : 1 ≤ m.factorization p := by omega
    calc d.factorization p ≤ d * 1 := by omega
      _ ≤ d * m.factorization p := Nat.mul_le_mul_left d h2

theorem decimal_repr_pow (q : ℚ) (k : Nat) (h0 : 0 ≤ q.num)
    (h1 : (mkRat (q.num * 10 ^ k) q.den).den = 1) :
    q = mkRat (((mkRat (q.num * 10 ^ k) q.den).num.toNat : Int)) (10 ^ k) := by
  have hr : mkRat (q.num * 10 ^ k) q.den = 10 ^ k * q := by
    rw [Rat.mkRat_eq_div]
    conv_rhs => rw [← Rat.num_div_den q]
    push_cast
    ring
  have hq0 : 0 ≤ q := Rat.num_nonneg.mp h0
  have hr0 : 0 ≤ mkRat (q.num * 10 ^ k) q.den := by
    rw [hr]
    exact mul_nonneg (by positivity) hq0
  have hrnum : ((mkRat (q.num * 10 ^ k) q.den).num : ℚ) = mkRat (q.num * 10 ^ k) q.den :=
    (Rat.den_eq_one_iff _).mp h1
  have hrnum0 : 0 ≤ (mkRat (q.num * 10 ^ k) q.den).num := Rat.num_nonneg.mpr hr0
  rw [Rat.mkRat_eq_div]
  rw [show (((mkRat (q.num * 10 ^ k) q.den).num.toNat : Int)) =
      (mkRat (q.num * 10 ^ k) q.den).num from Int.toNat_of_nonneg hrnum0]
  rw [hrnum, hr]
  rw [show ((10 ^ k : Nat) : ℚ) = (10 : ℚ) ^ k from by push_cast; ring]
  exact (mul_div_cancel_left₀ q (by positivity)).symm

theorem den_dvd_pow (q : ℚ) (k : Nat) (h0 : 0 ≤ q.num)
    (h : (mkRat (q.num * 10 ^ k) q.den).den = 1) : q.den ∣ 10 ^ k := by
  have hq := decimal_repr_pow q k h0 h
  have hden : q.den =
      (mkRat (((mkRat (q.num * 10 ^ k) q.den).num.toNat : Int)) (10 ^ k)).den := by
    rw [← hq]
  rw [hden]
  exact mkRat_den_dvd _ _

theorem finiteDecimal_iff (q : ℚ) (h0 : 0 ≤ q.num) :
    (∃ k, (mkRat (q.num * 10 ^ k) q.den).den = 1) ↔
      (mkRat (q.num * 10 ^ q.den) q.den).den = 1 := by
  constructor
  · rintro ⟨k, hk⟩
    exact mkRat_den_one_of_dvd q q.den
      (dvd_pow_self_of_dvd_pow (by norm_num) (den_dvd_pow q k h0 hk))
  · intro h
    exact ⟨q.den, h⟩

theorem dyadic_finiteDecimal (n : Int) (e : Nat) :
    ∃ k, (mkRat ((mkRat n (2 ^ e)).num * 10 ^ k) (mkRat n (2 ^ e)).den).den = 1 := by
  refine ⟨e, mkRat_den_one_of_dvd _ e ?_⟩
  exact dvd_trans (mkRat_den_dvd n (2 ^ e)) (pow_dvd_pow_of_dvd (by norm_num) e)

theorem decExpAux_finds (q : ℚ) :
    ∀ fuel k0, (mkRat (q.num * 10 ^ (k0 + fuel)) q.den).den = 1 →
      (mkRat (q.num * 10 ^ decExpAux q fuel k0) q.den).den = 1 := by
  intro fuel
  induction fuel with
  | zero =>
    intro k0 h
    simpa using h
  | succ f ih =>
    intro k0 h
    by_cases hk : (mkRat (q.num * 10 ^ k0) q.den).den = 1
    · simp only [decExpAux]
      rw [if_pos hk]
      exact hk
    · simp only [decExpAux]
      rw [if_neg hk]
      exact ih (k0 + 1) (by rw [show k0 + 1 + f = k0 + (f + 1) from by omega]; exact h)

theorem decExp_den_one (q : ℚ)
    (h : (mkRat (q.num * 10 ^ q.den) q.den).den = 1) :
    (mkRat (q.num * 10 ^ decExp q) q.den).den = 1 :=
  decExpAux_finds q q.den 0 (by simpa using h)

theorem parseDecimalChars_decimalChars (q : ℚ) (h0 : 0 ≤ q.num)
    (h1 : (mkRat (q.num * 10 ^ q.den) q.den).den = 1) :
    parseDecimalChars (decimalChars q) = some q := by
  have hP : (mkRat (q.num * 10 ^ decExp q) q.den).den = 1 := decExp_den_one q h1
  have hq := decimal_repr_pow q (decExp q) h0 hP
  set n := (mkRat (q.num * 10 ^ decExp q) q.den).num.toNat with hn
  by_cases hk : decExp q = 0
  · have hdc : decimalChars q = natChars n := by
      unfold decimalChars
      rw [← hn, if_pos hk]
    rw [hdc]
    unfold parseDecimalChars
    rw [splitOnChar_no_sep '.' _ (dot_not_mem_natChars _)]
    simp only [natFromChars_natChars]
    rw [show Option.map (fun k => mkRat ((k : Nat) : Int) 1) (some n) =
        some (mkRat ((n : Nat) : Int) 1) from rfl]
    rw [hq, hk, pow_zero]
  · have hdc : decimalChars q = natChars (n / 10 ^ decExp q) ++
        '.' :: padChars (decExp q) (n % 10 ^ decExp q) := by
      unfold decimalChars
      rw [← hn, if_neg hk]
    rw [hdc]
    unfold parseDecimalChars
    rw [splitOnChar_two '.' _ _ (dot_not_mem_natChars _) (dot_not_mem_padChars _ _)]
    simp only [natFromChars_natChars, natFromChars_padChars _ _ hk, padChars_length]
    rw [Nat.mod_mod_of_dvd n (dvd_refl (10 ^ decExp q))]
    rw [show n / 10 ^ decExp q * 10 ^ decExp q + n % 10 ^ decExp q = n from by
      rw [mul_comm]
      exact Nat.div_add_mod n (10 ^ decExp q)]
    exact congrArg some hq.symm

/-! ## Time round-trip lemmas -/

theorem timeValid_canonical (t : String) (hv : timeValid t = true) :
    ∃ h m, 12 ≤ h ∧ h ≤ 23 ∧ m < 60 ∧ t = fmtTime h m := by
  obtain ⟨l⟩ := t
  have hd : (String.mk l).data = l := rfl
  unfold timeValid at hv
  rw [hd] at hv
  rcases l with _ | ⟨c1, _ | ⟨c2, _ | ⟨c3, _ | ⟨c4, _ | ⟨c5, _ | ⟨c6, rest⟩⟩⟩⟩⟩⟩
  · simp at hv
  · simp at hv
  · simp at hv
  · simp at hv
  · simp at hv
  · rw [Bool.and_eq_true, decide_eq_true_eq] at hv
    obtain ⟨hc3, hv⟩ := hv
    subst hc3
    cases hd1 : digitVal c1 with
    | none => rw [hd1] at hv; simp at hv
    | some a =>
      cases hd2 : digitVal c2 with
      | none => rw [hd1, hd2] at hv; simp at hv
      | some b =>
        cases hd3 : digitVal c4 with
        | none => rw [hd1, hd2, hd3] at hv; simp at hv
        | some x =>
          cases hd4 : digitVal c5 with
          | none => rw [hd1, hd2, hd3, hd4] at hv; simp at hv
          | some y =>
            rw [hd1, hd2, hd3, hd4] at hv
            simp only [Bool.and_eq_true, decide_eq_true_eq] at hv
            obtain ⟨⟨h12, h23⟩, hm59⟩ := hv
            have hb := digitVal_lt c2 b hd2
            have hy := digitVal_lt c5 y hd4
            refine ⟨10 * a + b, 10 * x + y, h12, h23, by omega, ?_⟩
            have e1 : (10 * a + b) / 10 = a := by omega
            have e2 : (10 * a + b) % 10 = b := by omega
            have e3 : (10 * x + y) / 10 = x := by omega
            have e4 : (10 * x + y) % 10 = y := by omega
            rw [fmtTime, fmtTimeChars, e1, e2, e3, e4,
              digitChar_digitVal c1 a hd1, digitChar_digitVal c2 b hd2,
              digitChar_digitVal c4 x hd3, digitChar_digitVal c5 y hd4]
  · simp at hv

theorem serializeTimeChars_fmtTime (h m : Nat) (h13 : 13 ≤ h) (h23 : h ≤ 23)
    (hm : m < 60) :
    serializeTimeChars (fmtTime h m) =
      natChars (h - 12) ++ [digitChar (m / 10), digitChar (m % 10)] := by
  have hd : (fmtTime h m).data = fmtTimeChars h m := rfl
  unfold serializeTimeChars
  rw [hd]
  simp only [fmtTimeChars, digitVal_digitChar (h / 10) (by omega),
    digitVal_digitChar (h % 10) (by omega)]
  rw [if_pos trivial]
  rw [show 10 * (h / 10) + h % 10 = h from by omega]
  rw [if_neg (by omega)]

theorem serializeTimeChars_fmtTime_twelve (h m : Nat) (h12 : 12 ≤ h)
    (h12' : h ≤ 12) (hm : m < 60) :
    serializeTimeChars (fmtTime h m) =
      [digitChar (h / 10), digitChar (h % 10), digitChar (m / 10), digitChar (m % 10)] := by
  have hd : (fmtTime h m).data = fmtTimeChars h m := rfl
  unfold serializeTimeChars
  rw [hd]
  simp only [fmtTimeChars, digitVal_digitChar (h / 10) (by omega),
    digitVal_digitChar (h % 10) (by omega)]
  rw [if_pos trivial]
  rw [show 10 * (h / 10) + h % 10 = h from by omega]
  rw [if_pos h12']

theorem parseTime_serializeTime (h m : Nat) (h12 : 12 ≤ h) (h23 : h ≤ 23)
    (hm : m < 60) :
    (parseTimeParamChars (serializeTimeChars (fmtTime h m))).getD "" = fmtTime h m := by
  by_cases h12' : h ≤ 12
  · rw [serializeTimeChars_fmtTime_twelve h m h12 h12' hm]
    simp only [parseTimeParamChars, digitVal_digitChar (h / 10) (by omega),
      digitVal_digitChar (h % 10) (by omega), digitVal_digitChar (m / 10) (by omega),
      digitVal_digitChar (m % 10) (by omega)]
    rw [show 10 * (h / 10) + h % 10 = h from by omega]
    unfold pmAdjust
    rw [if_neg (by omega)]
    rw [show 10 * (m / 10) + m % 10 = m from by omega]
    rfl
  · rw [serializeTimeChars_fmtTime h m (by omega) h23 hm]
    by_cases h21 : h ≤ 21
    · rw [show natChars (h - 12) = [digitChar (h - 12)] from by
        rw [natChars_unfold, if_pos (by omega)]]
      simp only [List.cons_append, List.nil_append]
      simp only [parseTimeParamChars, digitVal_digitChar (h - 12) (by omega),
        digitVal_digitChar (m / 10) (by omega), digitVal_digitChar (m % 10) (by omega)]
      unfold pmAdjust
      rw [if_pos (by omega)]
      rw [show h - 12 + 12 = h from by omega,
        show 10 * (m / 10) + m % 10 = m from by omega]
      rfl
    · have hnat : natChars (h - 12) = [digitChar 1, digitChar (h - 22)] := by
        rw [natChars_unfold, if_neg (by omega)]
        rw [show (h - 12) / 10 = 1 from by omega,
          show (h - 12) % 10 = h - 22 from by omega]
        rw [natChars_unfold, if_pos (by norm_num)]
        rfl
      rw [hnat]
      simp only [List.cons_append, List.nil_append]
      simp only [parseTimeParamChars, digitVal_digitChar 1 (by norm_num),
        digitVal_digitChar (h - 22) (by omega), digitVal_digitChar (m / 10) (by omega),
        digitVal_digitChar (m % 10) (by omega)]
      unfold pmAdjust
      rw [show 10 * 1 + (h - 22) = h - 12 from by omega]
      rw [if_pos (by omega)]
      rw [show h - 12 + 12 = h from by omega,
        show 10 * (m / 10) + m % 10 = m from by omega]
      rfl

theorem fragSafe_serializeTime (h m : Nat) (h12 : 12 ≤ h) (h23 : h ≤ 23)
    (hm : m < 60) : fragSafe (serializeTimeChars (fmtTime h m)) := by
  by_cases h12' : h ≤ 12
  · rw [serializeTimeChars_fmtTime_twelve h m h12 h12' hm]
    intro c hc
    rcases List.mem_cons.mp hc with rfl | hc
    · exact fragSafeChar_of_digit _ (charIsDigit_digitChar _ (by omega))
    rcases List.mem_cons.mp hc with rfl | hc
    · exact fragSafeChar_of_digit _ (charIsDigit_digitChar _ (by omega))
    rcases List.mem_cons.mp hc with rfl | hc
    · exact fragSafeChar_of_digit _ (charIsDigit_digitChar _ (by omega))
    rcases List.mem_cons.mp hc with rfl | hc
    · exact fragSafeChar_of_digit _ (charIsDigit_digitChar _ (by omega))
    · exact absurd hc (List.not_mem_nil c)
  · rw [serializeTimeChars_fmtTime h m (by omega) h23 hm]
    intro c hc
    rw [List.mem_append] at hc
    rcases hc with hc | hc
    · exact fragSafeChar_of_digit c (natChars_all_digit _ c hc)
    · rcases List.mem_cons.mp hc with rfl | hc
      · exact fragSafeChar_of_digit _ (charIsDigit_digitChar _ (by omega))
      · rw [List.mem_singleton] at hc
        subst hc
        exact fragSafeChar_of_digit _ (charIsDigit_digitChar _ (by omega))

/-! ## Fragment-level round-trip lemmas -/

theorem mem_emit {α : Type} {x y : α} {c : Prop} [Decidable c]
    (h : x ∈ (if c then ([] : List α) else [y])) : ¬c ∧ x = y := by
  split at h
  · exact absurd h (List.not_mem_nil x)
  · rename_i hc
    rw [List.mem_singleton] at h
    exact ⟨hc, h⟩

theorem emit_eq_nil {α : Type} {y : α} {c : Prop} [Decidable c]
    (h : (if c then ([] : List α) else [y]) = []) : c := by
  by_contra hc
  rw [if_neg hc] at h
  simp at h

theorem paramsList_facts (s : TripPreferences) (hv : validPrefs s) :
    ∀ kv ∈ paramsList s,
      ('?' ∉ kv.1 ∧ '&' ∉ kv.1 ∧ '=' ∉ kv.1) ∧ fragSafe kv.2 := by
  intro kv hkv
  obtain ⟨hday, htime, hp1, hp6, hw0, hw1, hc0, hc1⟩ := hv
  simp only [paramsList, List.mem_append] at hkv
  rcases hkv with ((((((h | h) | h) | h) | h) | h) | h)
  · obtain ⟨hc, rfl⟩ := mem_emit h
    exact ⟨show '?' ∉ "modes".data ∧ '&' ∉ "modes".data ∧ '=' ∉ "modes".data by decide,
      fragSafe_modesVal s.modes⟩
  · obtain ⟨hc, rfl⟩ := mem_emit h
    exact ⟨show '?' ∉ "day".data ∧ '&' ∉ "day".data ∧ '=' ∉ "day".data by decide, hday⟩
  · obtain ⟨hc, rfl⟩ := mem_emit h
    rcases htime with h0 | hval
    · exact absurd h0 hc
    · obtain ⟨hh, mm, hx1, hx2, hx3, heq⟩ := timeValid_canonical s.time hval
      rw [heq]
      exact ⟨show '?' ∉ "time".data ∧ '&' ∉ "time".data ∧ '=' ∉ "time".data by decide,
        fragSafe_serializeTime hh mm hx1 hx2 hx3⟩
  · obtain ⟨hc, rfl⟩ := mem_emit h
    exact ⟨show '?' ∉ "people".data ∧ '&' ∉ "people".data ∧ '=' ∉ "people".data by decide,
      fragSafe_natChars s.people⟩
  · obtain ⟨hc, rfl⟩ := mem_emit h
    exact ⟨show '?' ∉ "walk".data ∧ '&' ∉ "walk".data ∧ '=' ∉ "walk".data by decide,
      fragSafe_decimalChars s.walkMiles⟩
  · obtain ⟨hc, rfl⟩ := mem_emit h
    exact ⟨show '?' ∉ "pay".data ∧ '&' ∉ "pay".data ∧ '=' ∉ "pay".data by decide,
      fragSafe_decimalChars s.costDollars⟩
  · obtain ⟨hc, rfl⟩ := mem_emit h
    exact ⟨show '?' ∉ "option".data ∧ '&' ∉ "option".data ∧ '=' ∉ "option".data by decide,
      fragSafe_optionsVal s.expandedOptions⟩

theorem parseKV_kvChars (kv : List Char × List Char) (hk : '=' ∉ kv.1)
    (hvv : '=' ∉ kv.2) : parseKV (kvChars kv) = some kv := by
  unfold parseKV kvChars
  rw [splitOnChar_two '=' kv.1 kv.2 hk hvv]

theorem filterMap_parseKV (ps : List (List Char × List Char))
    (h : ∀ kv ∈ ps, '=' ∉ kv.1 ∧ '=' ∉ kv.2) :
    List.filterMap parseKV (ps.map kvChars) = ps := by
  induction ps with
  | nil => rfl
  | cons kv ps ih =>
    simp only [List.map_cons, List.filterMap_cons,
      parseKV_kvChars kv (h kv (List.mem_cons_self _ _)).1
        (h kv (List.mem_cons_self _ _)).2,
      ih (fun x hx => h x (List.mem_cons_of_mem kv hx))]

theorem parseFrag_serializeFrag_params (s : TripPreferences) (hv : validPrefs s)
    (hne : paramsList s ≠ []) :
    parseFragChars (serializeFragChars s) =
      some ((paramsList s).foldl applyParam defaultPrefs) := by
  have hfacts := paramsList_facts s hv
  unfold serializeFragChars
  rw [if_neg hne]
  unfold parseFragChars
  have hqmark : '?' ∉ joinWithChar '&' ((paramsList s).map kvChars) := by
    intro hq
    rcases mem_joinWithChar '&' _ '?' hq with h | ⟨p, hp, hqp⟩
    · exact absurd h (by decide)
    · rcases List.mem_map.mp hp with ⟨kv, hkv, rfl⟩
      obtain ⟨⟨hk1, hk2, hk3⟩, hv2⟩ := hfacts kv hkv
      unfold kvChars at hqp
      rw [List.mem_append] at hqp
      rcases hqp with h | h
      · exact hk1 h
      · rcases List.mem_cons.mp h with h | h
        · exact absurd h (by decide)
        · exact absurd (hv2 '?' h) (by decide)
  have hampfree : ∀ p ∈ (paramsList s).map kvChars, '&' ∉ p := by
    rintro p hp hamp
    rcases List.mem_map.mp hp with ⟨kv, hkv, rfl⟩
    obtain ⟨⟨hk1, hk2, hk3⟩, hv2⟩ := hfacts kv hkv
    unfold kvChars at hamp
    rw [List.mem_append] at hamp
    rcases hamp with h | h
    · exact hk2 h
    · rcases List.mem_cons.mp h with h | h
      · exact absurd h (by decide)
      · exact absurd (hv2 '&' h) (by decide)
  have heqfree : ∀ kv ∈ paramsList s, '=' ∉ kv.1 ∧ '=' ∉ kv.2 := by
    intro kv hkv
    obtain ⟨⟨hk1, hk2, hk3⟩, hv2⟩ := hfacts kv hkv
    exact ⟨hk3, fun h => absurd (hv2 '=' h) (by decide)⟩
  rw [splitOnChar_two '?' basePath _ (by decide) hqmark]
  dsimp only
  rw [if_pos rfl]
  rw [splitOnChar_joinWithChar '&' ((paramsList s).map kvChars)
    (by simpa using hne) hampfree]
  rw [filterMap_parseKV (paramsList s) heqfree]

theorem foldl_applyParam (s : TripPreferences) (hv : validPrefs s) :
    (paramsList s).foldl applyParam defaultPrefs = s := by
  obtain ⟨hday, htime, hp1, hp6, hw0, hw1, hc0, hc1⟩ := hv
  obtain ⟨ms, dy, tm, pp, wk, pc, eo⟩ := s
  simp only at hday htime hp1 hp6 hw0 hw1 hc0 hc1
  unfold paramsList
  dsimp only
  rw [List.foldl_append, List.foldl_append, List.foldl_append, List.foldl_append,
    List.foldl_append, List.foldl_append]
  have step1 : List.foldl applyParam defaultPrefs
      (if ms = [] then [] else [("modes".data, modesVal ms)]) =
      ⟨ms, "", "", 6, 0, 0, []⟩ := by
    by_cases h : ms = []
    · rw [if_pos h]
      subst h
      rfl
    · rw [if_neg h]
      show applyParam defaultPrefs ("modes".data, modesVal ms) = _
      unfold applyParam
      dsimp only
      rw [if_pos rfl]
      rw [decodeChars_of_no_escape _ (not_mem_of_fragSafe _ (fragSafe_modesVal ms)).2.2.2]
      rw [parseModesChars_modesVal ms h]
      rfl
  have step2 : List.foldl applyParam (⟨ms, "", "", 6, 0, 0, []⟩ : TripPreferences)
      (if dy = "" then [] else [("day".data, dy.data)]) =
      ⟨ms, dy, "", 6, 0, 0, []⟩ := by
    by_cases h : dy = ""
    · rw [if_pos h]
      subst h
      rfl
    · rw [if_neg h]
      show applyParam _ ("day".data, dy.data) = _
      unfold applyParam
      dsimp only
      rw [if_neg (by decide), if_pos rfl]
      rw [decodeChars_of_no_escape dy.data (not_mem_of_fragSafe _ hday).2.2.2]
  have step3 : List.foldl applyParam (⟨ms, dy, "", 6, 0, 0, []⟩ : TripPreferences)
      (if tm = "" then [] else [("time".data, serializeTimeChars tm)]) =
      ⟨ms, dy, tm, 6, 0, 0, []⟩ := by
    by_cases h : tm = ""
    · rw [if_pos h]
      subst h
      rfl
    · rcases htime with h0 | hval
      · exact absurd h0 h
      obtain ⟨hh, mm, hx1, hx2, hx3, heq⟩ := timeValid_canonical tm hval
      rw [if_neg h, heq]
      show applyParam _ ("time".data, serializeTimeChars (fmtTime hh mm)) = _
      unfold applyParam
      dsimp only
      rw [if_neg (by decide), if_neg (by decide), if_pos rfl]
      rw [decodeChars_of_no_escape _
        (not_mem_of_fragSafe _ (fragSafe_serializeTime hh mm hx1 hx2 hx3)).2.2.2]
      rw [parseTime_serializeTime hh mm hx1 hx2 hx3]
  have step4 : List.foldl applyParam (⟨ms, dy, tm, 6, 0, 0, []⟩ : TripPreferences)
      (if pp = 6 then [] else [("people".data, natChars pp)]) =
      ⟨ms, dy, tm, pp, 0, 0, []⟩ := by
    by_cases h : pp = 6
    · rw [if_pos h]
      subst h
      rfl
    · rw [if_neg h]
      show applyParam _ ("people".data, natChars pp) = _
      unfold applyParam
      dsimp only
      rw [if_neg (by decide), if_neg (by decide), if_neg (by decide), if_pos rfl]
      rw [decodeChars_of_no_escape _ (not_mem_of_fragSafe _ (fragSafe_natChars pp)).2.2.2]
      rw [parsePeopleChars_natChars pp hp1 hp6]
  have step5 : List.foldl applyParam (⟨ms, dy, tm, pp, 0, 0, []⟩ : TripPreferences)
      (if wk = 0 then [] else [("walk".data, decimalChars wk)]) =
      ⟨ms, dy, tm, pp, wk, 0, []⟩ := by
    by_cases h : wk = 0
    · rw [if_pos h]
      subst h
      rfl
    · rw [if_neg h]
      show applyParam _ ("walk".data, decimalChars wk) = _
      unfold applyParam
      dsimp only
      rw [if_neg (by decide), if_neg (by decide), if_neg (by decide),
        if_neg (by decide), if_pos rfl]
      rw [decodeChars_of_no_escape _
        (not_mem_of_fragSafe _ (fragSafe_decimalChars wk)).2.2.2]
      rw [parseDecimalChars_decimalChars wk hw0 hw1]
      rfl
  have step6 : List.foldl applyParam (⟨ms, dy, tm, pp, wk, 0, []⟩ : TripPreferences)
      (if pc = 0 then [] else [("pay".data, decimalChars pc)]) =
      ⟨ms, dy, tm, pp, wk, pc, []⟩ := by
    by_cases h : pc = 0
    · rw [if_pos h]
      subst h
      rfl
    · rw [if_neg h]
      show applyParam _ ("pay".data, decimalChars pc) = _
      unfold applyParam
      dsimp only
      rw [if_neg (by decide), if_neg (by decide), if_neg (by decide),
        if_neg (by decide), if_neg (by decide), if_pos rfl]
      rw [decodeChars_of_no_escape _
        (not_mem_of_fragSafe _ (fragSafe_decimalChars pc)).2.2.2]
      rw [parseDecimalChars_decimalChars pc hc0 hc1]
      rfl
  have step7 : List.foldl applyParam (⟨ms, dy, tm, pp, wk, pc, []⟩ : TripPreferences)
      (if eo = [] then [] else
        [("option".data, joinWithChar ',' (eo.map natChars))]) =
      ⟨ms, dy, tm, pp, wk, pc, eo⟩ := by
    by_cases h : eo = []
    · rw [if_pos h]
      subst h
      rfl
    · rw [if_neg h]
      show applyParam _ ("option".data, joinWithChar ',' (eo.map natChars)) = _
      unfold applyParam
      dsimp only
      rw [if_neg (by decide), if_neg (by decide), if_neg (by decide),
        if_neg (by decide), if_neg (by decide), if_neg (by decide), if_pos rfl]
      rw [decodeChars_of_no_escape _
        (not_mem_of_fragSafe _ (fragSafe_optionsVal eo)).2.2.2]
      rw [parseOptionsChars_roundtrip eo h]
  rw [step1, step2, step3, step4, step5, step6, step7]

theorem parse_serialize_id (s : TripPreferences) (hv : validPrefs s) :
    parseFragment (serializeFragment s) = some s := by
  show parseFragChars (serializeFragChars s) = some s
  by_cases hne : paramsList s = []
  · obtain ⟨ms, dy, tm, pp, wk, pc, eo⟩ := s
    unfold serializeFragChars
    rw [if_pos hne]
    unfold parseFragChars
    rw [splitOnChar_no_sep '?' basePath (by decide)]
    dsimp only
    rw [if_pos rfl]
    unfold paramsList at hne
    dsimp only at hne
    simp only [List.append_eq_nil] at hne
    obtain ⟨⟨⟨⟨⟨⟨h1, h2⟩, h3⟩, h4⟩, h5⟩, h6⟩, h7⟩ := hne
    have e1 := emit_eq_nil h1
    have e2 := emit_eq_nil h2
    have e3 := emit_eq_nil h3
    have e4 := emit_eq_nil h4
    have e5 := emit_eq_nil h5
    have e6 := emit_eq_nil h6
    have e7 := emit_eq_nil h7
    clear h1 h2 h3 h4 h5 h6 h7
    subst e1
    subst e2
    subst e3
    subst e4
    subst e5
    subst e6
    subst e7
    rfl
  · rw [parseFrag_serializeFrag_params s hv hne, foldl_applyParam s hv]

/-- C1: for every day string and every 24-hour time of day, the enforcement
predicate `isParkingEnforced` returns `true` iff the day is one of
monday..friday and the time lies in the half-open interval `[08:00, 19:00)`;
in particular it is `false` at exactly 19:00 on a weekday, `true` at exactly
08:00 on a weekday, and `false` at every time on saturday and sunday
(the seven table entries exercised by the tests are confirmed verbatim). -/
theorem C1_enforcement_window :
    (∀ (day : String) (h m : Nat), h < 24 → m < 60 →
      (isParkingEnforced day (fmtTime h m) = true ↔
        day ∈ weekdays ∧ 8 ≤ h ∧ h < 19)) ∧
    isParkingEnforced "monday" "12:00" = true ∧
    isParkingEnforced "tuesday" "19:30" = false ∧
    isParkingEnforced "wednesday" "07:30" = false ∧
    isParkingEnforced "thursday" "19:00" = false ∧
    isParkingEnforced "friday" "08:00" = true ∧
    isParkingEnforced "saturday" "14:00" = false ∧
    isParkingEnforced "sunday" "20:00" = false := by
  refine ⟨?_, by decide, by decide, by decide, by decide, by decide, by decide, by decide⟩
  intro day h m hh hm
  unfold isParkingEnforced
  rw [timeToMinutes_fmtTime h m hh hm]
  simp only [isWeekday, weekdays, List.any_eq_true, Bool.and_eq_true, decide_eq_true_eq,
    beq_iff_eq, List.mem_cons, List.not_mem_nil, or_false]
  constructor
  · rintro ⟨⟨w, hw, rfl⟩, h1, h2⟩
    exact ⟨by simpa [weekdays] using hw, by omega, by omega⟩
  · rintro ⟨hd, h1, h2⟩
    refine ⟨⟨day, by simpa [weekdays] using hd, rfl⟩, by omega, by omega⟩

/-- Witness for C1: the general window equivalence evaluated on monday noon. -/
theorem C1_enforcement_window_witness :
    (12 < 24 ∧ 0 < 60) ∧ isParkingEnforced "monday" (fmtTime 12 0) = true :=
  ⟨by decide, (C1_enforcement_window.1 "monday" 12 0 (by decide) (by decide)).mpr (by decide)⟩

/-- C2: a 3-digit (`HMM`) or 4-digit (`HHMM`) time parameter whose parsed
hour lies in 1–11 parses to the 24-hour display time with hour `hour + 12`,
while a parsed hour of 12 stays 12; concretely `830`→`20:30`,
`1000`→`22:00`, `500`→`17:00`, `930`→`21:30`, `700`→`19:00`. -/
theorem C2_time_pm_parsing :
    (∀ h m1 m2 : Nat, 1 ≤ h → h ≤ 9 → m1 < 10 → m2 < 10 →
      parseTimeParamChars [digitChar h, digitChar m1, digitChar m2] =
        some (fmtTime (h + 12) (10 * m1 + m2))) ∧
    (∀ h1 h2 m1 m2 : Nat, h1 < 10 → h2 < 10 → m1 < 10 → m2 < 10 →
      1 ≤ 10 * h1 + h2 → 10 * h1 + h2 ≤ 11 →
      parseTimeParamChars [digitChar h1, digitChar h2, digitChar m1, digitChar m2] =
        some (fmtTime (10 * h1 + h2 + 12) (10 * m1 + m2))) ∧
    (∀ m1 m2 : Nat, m1 < 10 → m2 < 10 →
      parseTimeParamChars [digitChar 1, digitChar 2, digitChar m1, digitChar m2] =
        some (fmtTime 12 (10 * m1 + m2))) ∧
    parseTimeParam "830" = some "20:30" ∧
    parseTimeParam "1000" = some "22:00" ∧
    parseTimeParam "500" = some "17:00" ∧
    parseTimeParam "930" = some "21:30" ∧
    parseTimeParam "700" = some "19:00" := by
  refine ⟨?_, ?_, ?_, by decide, by decide, by decide, by decide, by decide⟩
  · intro h m1 m2 hl hr hm1 hm2
    simp only [parseTimeParamChars, digitVal_digitChar h (by omega),
      digitVal_digitChar m1 hm1, digitVal_digitChar m2 hm2, Option.some_bind,
      Option.bind_some, pmAdjust]
    rw [if_pos (by omega)]
  · intro h1 h2 m1 m2 hh1 hh2 hm1 hm2 hl hr
    simp only [parseTimeParamChars, digitVal_digitChar h1 hh1,
      digitVal_digitChar h2 hh2, digitVal_digitChar m1 hm1,
      digitVal_digitChar m2 hm2, Option.some_bind, Option.bind_some, pmAdjust]
    rw [if_pos (by omega)]
  · intro m1 m2 hm1 hm2
    simp only [parseTimeParamChars, digitVal_digitChar 1 (by omega),
      digitVal_digitChar 2 (by omega), digitVal_digitChar m1 hm1,
      digitVal_digitChar m2 hm2, Option.some_bind, Option.bind_some, pmAdjust]
    rw [if_neg (by omega)]

/-- Witness for C2: the 3-digit branch evaluated at `830`. -/
theorem C2_time_pm_parsing_witness :
    (1 ≤ 8 ∧ 8 ≤ 9 ∧ 3 < 10 ∧ 0 < 10) ∧
      parseTimeParamChars [digitChar 8, digitChar 3, digitChar 0] =
        some (fmtTime (8 + 12) (10 * 3 + 0)) :=
  ⟨by decide, C2_time_pm_parsing.1 8 3 0 (by decide) (by decide) (by decide) (by decide)⟩

/-- C8: an in-range `people` value 1..6 is stored as-is, and an out-of-range
or non-numeric value falls back to the configured default 6 rather than
being clamped to the nearest bound (`people=3` yields 3, `people=10` yields
6, and `people=0` yields 6 rather than the nearest bound 1). -/
theorem C8_people_default :
    (∀ n : Nat, 1 ≤ n → n ≤ 6 → parsePeopleChars (natChars n) = n) ∧
    (∀ n : Nat, ¬(1 ≤ n ∧ n ≤ 6) → parsePeopleChars (natChars n) = 6) ∧
    parsePeopleChars "3".data = 3 ∧
    parsePeopleChars "10".data = 6 ∧
    parsePeopleChars "0".data = 6 ∧
    parsePeopleChars "abc".data = 6 := by
  refine ⟨?_, ?_, by decide, by decide, by decide, by decide⟩
  · intro n h1 h6
    simp only [parsePeopleChars, natFromChars_natChars]
    rw [if_pos ⟨h1, h6⟩]
  · intro n h
    simp only [parsePeopleChars, natFromChars_natChars]
    rw [if_neg h]

/-- Witness for C8: both branches evaluated, at 3 and at 10. -/
theorem C8_people_default_witness :
    ((1 ≤ 3 ∧ 3 ≤ 6) ∧ parsePeopleChars (natChars 3) = 3) ∧
      (¬(1 ≤ 10 ∧ 10 ≤ 6) ∧ parsePeopleChars (natChars 10) = 6) :=
  ⟨⟨by decide, C8_people_default.1 3 (by decide) (by decide)⟩,
   ⟨by decide, C8_people_default.2.1 10 (by decide)⟩⟩

/-- C3: whenever both rideshare and drive are among the selected modes the
engine selects rideshare regardless of day, time, walk budget and pay
budget: the rendered result contains "rideshare" and "Uber" and contains
neither "parking" nor "Park at". -/
theorem C3_rideshare_beats_drive (s : TripPreferences)
    (hr : Mode.rideshare ∈ s.modes) (hd : Mode.drive ∈ s.modes) :
    recommend s = rideshareRender ∧
    strContains (recommend s) "rideshare" = true ∧
    strContains (recommend s) "Uber" = true ∧
    strContains (recommend s) "parking" = false ∧
    strContains (recommend s) "Park at" = false := by
  have h : recommend s = rideshareRender := by
    unfold recommend
    rw [if_pos ⟨hr, hd⟩]
  refine ⟨h, ?_, ?_, ?_, ?_⟩ <;> rw [h] <;> decide

/-- Witness for C3: the test's wednesday 18:00 state with both modes. -/
theorem C3_rideshare_beats_drive_witness :
    strContains (recommend (testState [Mode.rideshare, Mode.drive]
      "wednesday" "18:00" 0 20)) "Uber" = true :=
  (C3_rideshare_beats_drive _ (by decide) (by decide)).2.2.1

/-- C7: with drive, transit and rideshare all selected and a walk budget of
zero, the drive+transit combination is non-viable and the engine falls
through to rideshare: the result contains "rideshare" and "Uber" and
contains neither "No options available" nor "Unknown Strategy". -/
theorem C7_drive_transit_fallback (s : TripPreferences)
    (hd : Mode.drive ∈ s.modes) (ht : Mode.transit ∈ s.modes)
    (hr : Mode.rideshare ∈ s.modes) (hw : s.walkMiles = 0) :
    strContains (recommend s) "rideshare" = true ∧
    strContains (recommend s) "Uber" = true ∧
    strContains (recommend s) "No options available" = false ∧
    strContains (recommend s) "Unknown Strategy" = false := by
  have h : recommend s = rideshareRender := by
    unfold recommend
    rw [if_pos ⟨hr, hd⟩]
  rw [h]
  exact ⟨by decide, by decide, by decide, by decide⟩

/-- Witness for C7: the test's wednesday 18:00 state with all three modes. -/
theorem C7_drive_transit_fallback_witness :
    strContains (recommend (testState [Mode.drive, Mode.rideshare, Mode.transit]
      "wednesday" "18:00" 0 25)) "Unknown Strategy" = false :=
  (C7_drive_transit_fallback _ (by decide) (by decide) (by decide) rfl).2.2.2

/-- C5: when drive is the viable mode (no rideshare or transit selected),
the day/time is inside the enforcement window, the pay budget is below the
required metered cost, and no free walkable alternative exists (walk budget
at most the 0.5-mile enforcement zone), the engine returns the
"Unknown Strategy" terminal card as a normal value of the total `recommend`
function — with reason "not willing to pay for parking" when the budget is
exactly 0, and "No options available" otherwise. -/
theorem C5_no_options_terminal (s : TripPreferences)
    (hd : Mode.drive ∈ s.modes) (hnr : Mode.rideshare ∉ s.modes)
    (hnt : Mode.transit ∉ s.modes)
    (henf : isParkingEnforced s.day s.time = true)
    (hpay : s.costDollars < requiredCost (minutesOf s.time))
    (hwalk : s.walkMiles ≤ mkRat 1 2) :
    recommend s = (if s.costDollars = 0 then unknownNotWilling else unknownNoOptions) ∧
    strContains (recommend s) "Unknown Strategy" = true ∧
    (s.costDollars = 0 → strContains (recommend s) "not willing to pay for parking" = true) ∧
    (s.costDollars ≠ 0 → strContains (recommend s) "No options available" = true) := by
  have h1 : ¬(Mode.rideshare ∈ s.modes ∧ Mode.drive ∈ s.modes) := fun h => hnr h.1
  have h2 : ¬(Mode.drive ∈ s.modes ∧ Mode.transit ∈ s.modes) := fun h => hnt h.2
  have hrec : recommend s = renderParking s := by
    unfold recommend
    rw [if_neg h1, if_neg h2, if_pos hd]
  have hrp : renderParking s =
      (if s.costDollars = 0 then unknownNotWilling else unknownNoOptions) := by
    unfold renderParking
    rw [if_pos henf, if_pos hpay, if_neg (not_lt.mpr hwalk)]
  rw [hrec, hrp]
  by_cases h0 : s.costDollars = 0
  · rw [if_pos h0]
    exact ⟨rfl, by decide, fun _ => by decide, fun hc => absurd h0 hc⟩
  · rw [if_neg h0]
    exact ⟨rfl, by decide, fun hc => absurd hc h0, fun _ => by decide⟩

/-- Witness for C5: the test's monday 18:00, pay 0, walk 0.5 state. -/
theorem C5_no_options_terminal_witness :
    strContains (recommend (testState [Mode.drive] "monday" "18:00" (mkRat 1 2) 0))
      "Unknown Strategy" = true :=
  (C5_no_options_terminal _ (by decide) (by decide) (by decide) (by decide)
    (by decide) (by decide)).2.1

/-- C6 (amended): a drive-mode state with walk budget under 0.5 miles never
renders "surface lot"; and a drive-only state with walk budget at least 0.5
miles and pay budget in [8, 19] renders "affordable surface lot" provided
enforcement is off or the pay budget covers the required metered cost (the
unamended claim fails when the remaining enforced minutes make the required
metered cost exceed the budget; see the counterexample). -/
theorem C6_surface_lot_gating :
    (∀ s : TripPreferences, Mode.drive ∈ s.modes → s.walkMiles < mkRat 1 2 →
      strContains (recommend s) "surface lot" = false) ∧
    (∀ s : TripPreferences, Mode.drive ∈ s.modes → Mode.rideshare ∉ s.modes →
      Mode.transit ∉ s.modes → mkRat 1 2 ≤ s.walkMiles →
      8 ≤ s.costDollars → s.costDollars ≤ 19 →
      (isParkingEnforced s.day s.time = false ∨
        requiredCost (minutesOf s.time) ≤ s.costDollars) →
      strContains (recommend s) "affordable surface lot" = true) := by
  constructor
  · intro s hd hw
    unfold recommend renderParking
    split_ifs <;> first | decide | (exfalso; linarith)
  · intro s hd hnr hnt hw hp8 hp19 hcov
    have h1 : ¬(Mode.rideshare ∈ s.modes ∧ Mode.drive ∈ s.modes) := fun h => hnr h.1
    have h2 : ¬(Mode.drive ∈ s.modes ∧ Mode.transit ∈ s.modes) := fun h => hnt h.2
    have hrec : recommend s = renderParking s := by
      unfold recommend
      rw [if_neg h1, if_neg h2, if_pos hd]
    have hrp : renderParking s = affordableLotRender := by
      unfold renderParking
      rcases hcov with hoff | hcov

      · rw [hoff]
        simp only [Bool.false_eq_true, if_false]
        rw [if_pos hp8, if_pos hw, if_pos hp19]
      · by_cases henf : isParkingEnforced s.day s.time = true
        · rw [if_pos henf, if_neg (not_lt.mpr hcov), if_pos hp8, if_pos hw, if_pos hp19]
        · rw [if_neg henf, if_pos hp8, if_pos hw, if_pos hp19]
    rw [hrec, hrp]
    decide

/-- Counterexample for C6 as stated: at monday 08:00 the required metered
cost for the remaining enforcement window is $44, so a drive-only state with
walk 0.5 and pay 8 — squarely in the claim's walk ≥ 0.5 and pay ∈ [8, 19]
band — renders "Unknown Strategy: No options available" and does not
contain "affordable surface lot". -/
theorem C6_surface_lot_counterexample :
    (mkRat 1 2 ≤ mkRat 1 2 ∧ (8 : ℚ) ≤ 8 ∧ (8 : ℚ) ≤ 19) ∧
    strContains (recommend (testState [Mode.drive] "monday" "08:00" (mkRat 1 2) 8))
      "affordable surface lot" = false ∧
    recommend (testState [Mode.drive] "monday" "08:00" (mkRat 1 2) 8) =
      unknownNoOptions := by
  exact ⟨by decide, by decide, by decide⟩

/-- Witness for C6: both conjuncts evaluated on the tests' concrete states
(friday 18:00 walk 0.2 pay 9, and monday 18:00 walk 0.5 pay 10). -/
theorem C6_surface_lot_gating_witness :
    strContains (recommend (testState [Mode.drive] "friday" "18:00" (mkRat 1 5) 9))
      "surface lot" = false ∧
    strContains (recommend (testState [Mode.drive] "monday" "18:00" (mkRat 1 2) 10))
      "affordable surface lot" = true :=
  ⟨C6_surface_lot_gating.1 _ (by decide) (by decide),
   C6_surface_lot_gating.2 _ (by decide) (by decide) (by decide) (by decide)
     (by decide) (by decide) (Or.inr (by decide))⟩

/-- C4: the serialize/parse pair round-trips: for every valid preference
state `s` (fragment-safe day, well-formed stored time, people 1..6, and
non-negative finite-decimal walk/pay — which by `dyadic_finiteDecimal`
covers every float value), `parse (serialize s) = some s`; consequently
serialization is idempotent after one normalizing pass — for every fragment
`x` that parses to a valid state, serializing that state and re-running
parse-then-serialize reproduces the same fragment string. -/
theorem C4_fragment_roundtrip :
    (∀ s : TripPreferences, validPrefs s →
      parseFragment (serializeFragment s) = some s) ∧
    (∀ (x : String) (s : TripPreferences), parseFragment x = some s → validPrefs s →
      (parseFragment (serializeFragment s)).map serializeFragment =
        some (serializeFragment s)) := by
  refine ⟨parse_serialize_id, ?_⟩
  intro x s hx hv
  rw [parse_serialize_id s hv]
  rfl

/-- Witness for C4: the round trip evaluated on a fully populated concrete
state (drive on monday 17:00, 3 people, walk 0.25 — a two-decimal float
value — pay 10, card 1 expanded). -/
theorem C4_fragment_roundtrip_witness :
    validPrefs (TripPreferences.mk [Mode.drive] "monday" "17:00" 3 (mkRat 1 4) 10 [1]) ∧
    parseFragment (serializeFragment
      (TripPreferences.mk [Mode.drive] "monday" "17:00" 3 (mkRat 1 4) 10 [1])) =
      some (TripPreferences.mk [Mode.drive] "monday" "17:00" 3 (mkRat 1 4) 10 [1]) :=
  ⟨by decide, C4_fragment_roundtrip.1 _ (by decide)⟩

/-- Counterexample for C9 as stated: the repository's own test
("should handle URL-encoded parameters") asserts the URL-decoded day value
is stored even when it is not one of monday..sunday — parsing the test's
fragment stores `state.day = "next week"` rather than leaving it empty. -/
theorem C9_day_counterexample :
    ((parseFragment "#/visit/van-andel-arena?day=next%20week&time=700").getD
        defaultPrefs).day = "next week" ∧
    ((parseFragment "#/visit/van-andel-arena?day=next%20week&time=700").getD
        defaultPrefs).day ≠ "" ∧
    "next week" ∉ ["monday", "tuesday", "wednesday", "thursday", "friday",
      "saturday", "sunday"] :=
  ⟨by decide, by decide, by decide⟩

/-- C9 (amended): the day parameter is URL-decoded and then stored as-is,
whether or not it belongs to monday..sunday — matching the repository's
test rather than the spec table's "else ignored" rule: applying a `day`
parameter stores the percent-decoded value verbatim, and the test fragments
yield `"next week"` and `"monday"` respectively. -/
theorem C9_day_decoded_stored :
    (∀ v : List Char,
      (applyParam defaultPrefs ("day".data, v)).day = String.mk (decodeChars v)) ∧
    ((parseFragment "#/visit/van-andel-arena?day=next%20week&time=700").getD
        defaultPrefs).day = "next week" ∧
    ((parseFragment "#/visit/van-andel-arena?day=monday").getD defaultPrefs).day
      = "monday" := by
  refine ⟨?_, by decide, by decide⟩
  intro v
  unfold applyParam
  dsimp only
  rw [if_neg (by decide), if_pos rfl]

/-- C10: serialization writes the stored time back in the 3–4 digit PM
shorthand the parser accepts: for a stored 24-hour time with hour in 13..23
it emits `hour - 12` followed by the two minute digits with no separator
(and parsing the emitted shorthand restores the stored time); a state whose
time is 17:00 serializes to a fragment containing `time=500`. -/
theorem C10_time_serialization :
    (∀ h m : Nat, 13 ≤ h → h ≤ 23 → m < 60 →
      serializeTimeChars (fmtTime h m) =
        natChars (h - 12) ++ [digitChar (m / 10), digitChar (m % 10)] ∧
      (parseTimeParamChars (serializeTimeChars (fmtTime h m))).getD "" =
        fmtTime h m) ∧
    serializeTimeChars "17:00" = "500".data ∧
    strContains (serializeFragment (testState [] "" "17:00" 0 0)) "time=500"
      = true := by
  refine ⟨?_, by decide, by decide⟩
  intro h m h13 h23 hm
  exact ⟨serializeTimeChars_fmtTime h m h13 h23 hm,
    parseTime_serializeTime h m (by omega) h23 hm⟩

/-- Witness for C10: the shorthand emitted for 17:00. -/
theorem C10_time_serialization_witness :
    (13 ≤ 17 ∧ 17 ≤ 23 ∧ 0 < 60) ∧
      serializeTimeChars (fmtTime 17 0) =
        natChars (17 - 12) ++ [digitChar (0 / 10), digitChar (0 % 10)] :=
  ⟨by decide, (C10_time_serialization.1 17 0 (by decide) (by decide) (by decide)).1⟩

end Multimodality